import Mathlib

/-!
Verification of the documentation-server repository (`src/index.ts`).

The program registers two MCP tool handlers, `getOverviewDocFor` and
`getDetailedDocFor`.  Each computes an absolute path by joining the project
root (one level up from the module's directory) with `docs`, the request
segments and a Markdown filename, checks existence with `fs.access`, reads
the file with `fs.readFile`, and wraps the result or the caught error into
a response envelope `{ content: [{ type: "text", text }], isError? }`.

The embedding below models POSIX path strings as lists of segments
(`Path`), Node's `path.join`/`path.resolve` normalisation as a left fold
over segments, and the asynchronous filesystem as a record of three
fallible operations (`access`, `readFile`, `readdir`) returning
`Except String _`, the error string standing for the thrown error's
`message`.  The handlers become total Lean functions on that state.
`console.error` logging is omitted: it never flows into a response.
-/

namespace McpDocServer

set_option maxRecDepth 8192

/-- An absolute filesystem path, as its list of segments (the leading `/`
is implicit). -/
abbrev Path := List String

/-- One step of Node's path normalisation for an absolute path: empty and
`.` segments are dropped, `..` pops the last retained segment (at the root
it is simply dropped), any other segment is kept. -/
def normStep (acc : List String) (seg : String) : List String :=
  if seg = "" ∨ seg = "." then acc
  else if seg = ".." then acc.dropLast
  else acc ++ [seg]

/-- Node's `path.normalize` on the segments of an absolute path. -/
def normSegs (segs : List String) : Path :=
  segs.foldl normStep []

/-- Splitting the characters of a POSIX path string at `/`, accumulating
the current segment in reverse. -/
def splitSegsAux : List Char → List Char → List String
  | [], acc => [String.mk acc.reverse]
  | c :: cs, acc =>
    if c = '/' then String.mk acc.reverse :: splitSegsAux cs []
    else splitSegsAux cs (c :: acc)

/-- The `/`-separated segments of a path string. -/
def segsOf (s : String) : List String :=
  splitSegsAux s.data []

/-- `path.resolve(p, "..")` for an absolute `p`: append `..` and
normalise. -/
def resolveUp (p : Path) : Path :=
  normSegs (p ++ [".."])

/-- `src/index.ts` line 36: `path.join(projectRoot, "docs", name,
"overview.md")`, where `projectRoot = path.resolve(modulePath, '..')`. -/
def overviewDocPath (modulePath : Path) (name : String) : Path :=
  normSegs (resolveUp modulePath ++ segsOf "docs" ++ segsOf name ++ segsOf "overview.md")

/-- `path.join(projectRoot, "docs")`: the fixed documentation root. -/
def docsRootPath (modulePath : Path) : Path :=
  normSegs (resolveUp modulePath ++ segsOf "docs")

/-- `src/index.ts` line 129: `path.join(projectRoot, "docs", project)`. -/
def projectDirPath (modulePath : Path) (project : String) : Path :=
  normSegs (resolveUp modulePath ++ segsOf "docs" ++ segsOf project)

/-- `src/index.ts` line 101: `path.join(projectRoot, "docs", project,
`${document}.md`)`. -/
def detailDocPath (modulePath : Path) (project document : String) : Path :=
  normSegs (resolveUp modulePath ++ segsOf "docs" ++ segsOf project ++ segsOf (document ++ ".md"))

/-- The filesystem as seen by the handlers: `fs.access(p, F_OK)`,
`fs.readFile(p, "utf-8")` and `fs.readdir(p)`, each either succeeding or
throwing an error whose `message` is the `String` of the `error` case. -/
structure FS where
  access : Path → Except String Unit
  readFile : Path → Except String String
  readdir : Path → Except String (List String)

/-- One entry of a response's `content` array. -/
structure ContentItem where
  type : String
  text : String
deriving DecidableEq

/-- The response envelope a handler returns: a `content` array and an
optional `isError` flag (absent on success). -/
structure Response where
  content : List ContentItem
  isError : Option Bool
deriving DecidableEq

/-- The text of a response's first content item. -/
def responseText (r : Response) : String :=
  (r.content.headD { type := "text", text := "" }).text

/-- The `try` body shared by both handlers: `await fs.access(docPath)`
then `await fs.readFile(docPath)`; the first rejection is the caught
error. -/
def tryReadDoc (fs : FS) (p : Path) : Except String String :=
  match fs.access p with
  | .error e => .error e
  | .ok _ => fs.readFile p

/-- `Array.prototype.join(', ')`. -/
def joinComma : List String → String
  | [] => ""
  | [f] => f
  | f :: g :: rest => f ++ ", " ++ joinComma (g :: rest)

/-- `src/index.ts` line 78: the error text of `getOverviewDocFor`. -/
def overviewErrText (name errorMessage : String) : String :=
  "Error: Could not find overview document for \"" ++ name ++ "\". " ++ errorMessage

/-- `src/index.ts` lines 141-142: the error text of `getDetailedDocFor`
when the project directory could be listed. -/
def detailSiblingsErrText (project document errorMessage : String) (files : List String) : String :=
  "Error: Could not find document \"" ++ document ++ ".md\" for project \"" ++ project ++
    "\". \nAvailable documents: " ++ joinComma files ++ ". " ++ errorMessage

/-- `src/index.ts` line 151: the error text of `getDetailedDocFor` when
the project directory could not be listed. -/
def detailMissingErrText (project document errorMessage : String) : String :=
  "Error: Could not find project \"" ++ project ++ "\" or document \"" ++ document ++
    ".md\". " ++ errorMessage

/-- The `getOverviewDocFor` handler (`src/index.ts` lines 17-84).  The
diagnostic directory listing in the catch block only writes to
`console.error`, inside its own try/catch, and never reaches the returned
response, so it does not appear here. -/
def getOverviewDocFor (fs : FS) (modulePath : Path) (name : String) : Response :=
  let docPath := overviewDocPath modulePath name
  match tryReadDoc fs docPath with
  | .ok content => { content := [{ type := "text", text := content }], isError := none }
  | .error errorMessage =>
    { content := [{ type := "text", text := overviewErrText name errorMessage }],
      isError := some true }

/-- The catch block's diagnostic lookup in `getDetailedDocFor`
(`src/index.ts` lines 125-135): `await fs.access(projectDir)` then
`await fs.readdir(projectDir)`. -/
def listProjectDir (fs : FS) (p : Path) : Except String (List String) :=
  match fs.access p with
  | .error e => .error e
  | .ok _ => fs.readdir p

/-- The `getDetailedDocFor` handler (`src/index.ts` lines 87-158). -/
def getDetailedDocFor (fs : FS) (modulePath : Path) (project document : String) : Response :=
  let docPath := detailDocPath modulePath project document
  match tryReadDoc fs docPath with
  | .ok content => { content := [{ type := "text", text := content }], isError := none }
  | .error errorMessage =>
    let projectDir := projectDirPath modulePath project
    match listProjectDir fs projectDir with
    | .ok files =>
      { content := [{ type := "text",
                      text := detailSiblingsErrText project document errorMessage files }],
        isError := some true }
    | .error _ =>
      { content := [{ type := "text",
                      text := detailMissingErrText project document errorMessage }],
        isError := some true }

/-- A minimal JSON value, as far as the tool parameter schemas can see. -/
inductive JsonValue where
  | str (s : String)
  | num (n : Int)
  | boolean (b : Bool)
  | null
deriving DecidableEq

/-- The `z.string()` schema used for `name`, `project` and `document`
(`src/index.ts` lines 19 and 90-91): per the zod library's documented
semantics it accepts exactly the string values — the source attaches no
minimum-length refinement, so the empty string is accepted. -/
def zString : JsonValue → Except String String
  | .str s => .ok s
  | _ => .error "Expected string, received other type"

/-- The registered `getOverviewDocFor` tool: validate the `name` argument
with `z.string()`, then run the handler body. -/
def overviewToolCall (fs : FS) (modulePath : Path) (arg : JsonValue) : Except String Response :=
  match zString arg with
  | .error e => .error e
  | .ok name => .ok (getOverviewDocFor fs modulePath name)

/-- The registered `getDetailedDocFor` tool: validate both arguments with
`z.string()`, then run the handler body. -/
def detailToolCall (fs : FS) (modulePath : Path) (pv dv : JsonValue) : Except String Response :=
  match zString pv with
  | .error e => .error e
  | .ok project =>
    match zString dv with
    | .error e => .error e
    | .ok document => .ok (getDetailedDocFor fs modulePath project document)

/-- A sample on-disk state for concrete evaluations: the project root is
`/app`, and `docs/sample/` holds `overview.md` (`"Hello"`) and `tool.md`
(`"Tool details"`). -/
def fsSample : FS where
  access p :=
    if p = ["app", "docs", "sample", "overview.md"] ∨ p = ["app", "docs", "sample", "tool.md"] ∨
        p = ["app", "docs", "sample"] ∨ p = ["app", "docs"] then .ok ()
    else .error "ENOENT: no such file or directory"
  readFile p :=
    if p = ["app", "docs", "sample", "overview.md"] then .ok "Hello"
    else if p = ["app", "docs", "sample", "tool.md"] then .ok "Tool details"
    else .error "ENOENT: no such file or directory"
  readdir p :=
    if p = ["app", "docs", "sample"] then .ok ["overview.md", "tool.md"]
    else if p = ["app", "docs"] then .ok ["sample"]
    else .error "ENOTDIR: not a directory"

/-- A state where `docs/sample/overview.md` exists but cannot be read
(permissions), while the directory around it can still be listed. -/
def fsPerm : FS where
  access p :=
    if p = ["app", "docs", "sample", "overview.md"] then .error "EACCES: permission denied"
    else if p = ["app", "docs", "sample"] ∨ p = ["app", "docs"] then .ok ()
    else .error "ENOENT: no such file or directory"
  readFile _ := .error "EACCES: permission denied"
  readdir p :=
    if p = ["app", "docs", "sample"] then .ok ["tool.md"]
    else if p = ["app", "docs"] then .ok ["sample"]
    else .error "ENOTDIR: not a directory"

/-- `pat` occurs as a contiguous substring of `s`. -/
def StrContains (s pat : String) : Prop :=
  pat.data <:+: s.data

instance (s pat : String) : Decidable (StrContains s pat) :=
  inferInstanceAs (Decidable (pat.data <:+: s.data))

theorem strContains_of_parts (s pre pat post : String) (h : s = pre ++ pat ++ post) :
    StrContains s pat := by
  subst h
  exact ⟨pre.data, post.data, by simp⟩

theorem joinComma_mem (f : String) : ∀ l : List String, f ∈ l →
    StrContains (joinComma l) f
  | [g], h => by
    simp only [List.mem_singleton] at h
    subst h
    exact ⟨[], [], by simp [joinComma]⟩
  | g :: g2 :: rest, h => by
    rcases List.mem_cons.1 h with h1 | h2
    · subst h1
      exact ⟨[], (", " ++ joinComma (g2 :: rest)).data, by simp [joinComma]⟩
    · have ih := joinComma_mem f (g2 :: rest) h2
      obtain ⟨s, t, hst⟩ := ih
      exact ⟨(g ++ ", ").data ++ s, t, by simp [joinComma, ← hst]⟩

theorem normSegs_append (l1 l2 : List String) :
    normSegs (l1 ++ l2) = l2.foldl normStep (normSegs l1) := by
  simp [normSegs, List.foldl_append]

theorem foldl_normStep_extends (l : List String) (h : ".." ∉ l) :
    ∀ acc : List String, acc <+: l.foldl normStep acc := by
  induction l with
  | nil => exact fun acc => List.prefix_rfl
  | cons s rest ih =>
    intro acc
    have hs : s ≠ ".." := fun heq => h (heq ▸ List.mem_cons_self s rest)
    have hrest : ".." ∉ rest := fun hmem => h (List.mem_cons_of_mem s hmem)
    have step : acc <+: normStep acc s := by
      by_cases h1 : s = "" ∨ s = "."
      · simp [normStep, h1]
      · have : normStep acc s = acc ++ [s] := by simp [normStep, h1, hs]
        rw [this]
        exact ⟨[s], rfl⟩
    exact step.trans (ih hrest (normStep acc s))

/-- Every segment of `p` is a real name: not empty, not `.`, not `..`.
`path.resolve` output, such as a module directory, has this shape. -/
def normalPath (p : Path) : Bool :=
  p.all fun s => decide (s ≠ "" ∧ s ≠ "." ∧ s ≠ "..")

theorem foldl_normStep_normal (l : List String) (h : normalPath l = true) :
    ∀ acc : List String, l.foldl normStep acc = acc ++ l := by
  induction l with
  | nil => simp
  | cons s rest ih =>
    intro acc
    simp only [normalPath, List.all_cons, Bool.and_eq_true, decide_eq_true_eq] at h
    obtain ⟨⟨h1, h2, h3⟩, hrest⟩ := h
    have hstep : normStep acc s = acc ++ [s] := by
      simp [normStep, h1, h2, h3]
    rw [List.foldl_cons, hstep, ih hrest (acc ++ [s]), List.append_assoc]
    rfl

theorem normSegs_of_normal (p : Path) (h : normalPath p = true) : normSegs p = p := by
  simpa [normSegs] using foldl_normStep_normal p h []

theorem resolveUp_of_normal (p : Path) (h : normalPath p = true) :
    resolveUp p = p.dropLast := by
  simp [resolveUp, normSegs_append, normSegs_of_normal p h, normStep]

theorem splitSegsAux_append (ys : List Char) : ∀ (xs acc : List Char),
    splitSegsAux (xs ++ '/' :: ys) acc = splitSegsAux xs acc ++ splitSegsAux ys [] := by
  intro xs
  induction xs with
  | nil => intro acc; simp [splitSegsAux]
  | cons c cs ih =>
    intro acc
    by_cases hc : c = '/'
    · subst hc
      simp [splitSegsAux, ih]
    · simp [splitSegsAux, hc, ih]

theorem segsOf_slash_append (a b : String) :
    segsOf (a ++ "/" ++ b) = segsOf a ++ segsOf b := by
  have hdata : (a ++ "/" ++ b).data = a.data ++ '/' :: b.data := by simp
  simp only [segsOf, hdata, splitSegsAux_append]

/-- Modelled from the spec, for the refinement claim about path
resolution: `resolveOverviewPath(name)` yields
`<root>/docs/<name>/overview.md` (interpolated, then read as a path). -/
def specResolveOverviewPath (root : Path) (name : String) : Path :=
  normSegs (root ++ segsOf ("docs" ++ "/" ++ name ++ "/" ++ "overview.md"))

/-- Modelled from the spec, for the refinement claim about path
resolution: `resolveDetailPath(project, document)` yields
`<root>/docs/<project>/<document>.md` (interpolated, then read as a
path). -/
def specResolveDetailPath (root : Path) (project document : String) : Path :=
  normSegs (root ++ segsOf ("docs" ++ "/" ++ project ++ "/" ++ (document ++ ".md")))

/-- C1: for every request whose resolved file exists (`fs.access` succeeds)
and is readable (`fs.readFile` succeeds), the handler returns a successful
(non-error) response whose text is the exact contents of that file, with no
transformation, for both `getOverviewDocFor` and `getDetailedDocFor`. -/
theorem claim1_verbatim_contents (fs : FS) (m : Path) (name project document ca cb : String)
    (ha1 : fs.access (overviewDocPath m name) = Except.ok ())
    (hr1 : fs.readFile (overviewDocPath m name) = Except.ok ca)
    (ha2 : fs.access (detailDocPath m project document) = Except.ok ())
    (hr2 : fs.readFile (detailDocPath m project document) = Except.ok cb) :
    getOverviewDocFor fs m name =
      { content := [{ type := "text", text := ca }], isError := none } ∧
    getDetailedDocFor fs m project document =
      { content := [{ type := "text", text := cb }], isError := none } := by
  constructor
  · simp [getOverviewDocFor, tryReadDoc, ha1, hr1]
  · simp [getDetailedDocFor, tryReadDoc, ha2, hr2]

/-- C1 witness: on the sample filesystem, `getOverviewDocFor("sample")`
returns exactly `"Hello"` and `getDetailedDocFor("sample", "tool")`
returns exactly `"Tool details"`. -/
theorem claim1_verbatim_contents_witness :
    getOverviewDocFor fsSample ["app", "src"] "sample" =
      { content := [{ type := "text", text := "Hello" }], isError := none } ∧
    getDetailedDocFor fsSample ["app", "src"] "sample" "tool" =
      { content := [{ type := "text", text := "Tool details" }], isError := none } :=
  claim1_verbatim_contents fsSample ["app", "src"] "sample" "sample" "tool"
    "Hello" "Tool details" rfl rfl rfl rfl

/-- C2: for every module directory (a normalised absolute path) the
handlers resolve requests by a deterministic join: the overview path is
`<root>/docs/<name>/overview.md` and the detail path is
`<root>/docs/<project>/<document>.md`, where `<root>` is one level up
(`dropLast`) from the module's directory. -/
theorem claim2_path_resolution (m : Path) (hm : normalPath m = true)
    (name project document : String) :
    overviewDocPath m name = specResolveOverviewPath m.dropLast name ∧
    detailDocPath m project document = specResolveDetailPath m.dropLast project document := by
  have hup := resolveUp_of_normal m hm
  constructor
  · simp only [overviewDocPath, specResolveOverviewPath, hup, segsOf_slash_append,
      List.append_assoc]
  · simp only [detailDocPath, specResolveDetailPath, hup, segsOf_slash_append,
      List.append_assoc]

/-- C2 witness: with the module at `/app/src`, the resolved paths agree
with the spec's templates rooted at `/app`. -/
theorem claim2_path_resolution_witness :
    overviewDocPath ["app", "src"] "sample" =
      specResolveOverviewPath (List.dropLast ["app", "src"]) "sample" ∧
    detailDocPath ["app", "src"] "sample" "tool" =
      specResolveDetailPath (List.dropLast ["app", "src"]) "sample" "tool" :=
  claim2_path_resolution ["app", "src"] (by decide) "sample" "sample" "tool"

/-- C3 counterexample: with the module at `/app/src`, requesting the name
`..` resolves to `/app/overview.md`, which is not under the docs root
`/app/docs` — path construction can escape the fixed root. -/
theorem claim3_counterexample :
    overviewDocPath ["app", "src"] ".." = ["app", "overview.md"] ∧
    ¬ docsRootPath ["app", "src"] <+: overviewDocPath ["app", "src"] ".." := by
  decide

/-- C3 amended: the constructed path stays under the fixed docs root
whenever no `/`-separated segment of `name`, of `project`, or of
`document` with `.md` appended, equals `..`. -/
theorem claim3_amended_no_escape (m : Path) (name project document : String)
    (h1 : ".." ∉ segsOf name) (h2 : ".." ∉ segsOf project)
    (h3 : ".." ∉ segsOf (document ++ ".md")) :
    docsRootPath m <+: overviewDocPath m name ∧
    docsRootPath m <+: detailDocPath m project document := by
  constructor
  · have hrw : overviewDocPath m name =
        (segsOf name ++ segsOf "overview.md").foldl normStep (docsRootPath m) := by
      simp only [overviewDocPath, docsRootPath, normSegs_append, List.foldl_append,
        List.append_assoc]
    have hnot : ".." ∉ segsOf name ++ segsOf "overview.md" := by
      intro hmem
      rcases List.mem_append.1 hmem with h | h
      · exact h1 h
      · exact absurd h (by decide)
    rw [hrw]
    exact foldl_normStep_extends _ hnot (docsRootPath m)
  · have hrw : detailDocPath m project document =
        (segsOf project ++ segsOf (document ++ ".md")).foldl normStep (docsRootPath m) := by
      simp only [detailDocPath, docsRootPath, normSegs_append, List.foldl_append,
        List.append_assoc]
    have hnot : ".." ∉ segsOf project ++ segsOf (document ++ ".md") := by
      intro hmem
      rcases List.mem_append.1 hmem with h | h
      · exact h2 h
      · exact h3 h
    rw [hrw]
    exact foldl_normStep_extends _ hnot (docsRootPath m)

/-- C3 amended witness: ordinary single-segment requests stay under the
docs root. -/
theorem claim3_amended_no_escape_witness :
    docsRootPath ["app", "src"] <+: overviewDocPath ["app", "src"] "sample" ∧
    docsRootPath ["app", "src"] <+: detailDocPath ["app", "src"] "sample" "tool" :=
  claim3_amended_no_escape ["app", "src"] "sample" "sample" "tool"
    (by decide) (by decide) (by decide)

/-- C4 counterexample: on a filesystem where `docs/sample/overview.md`
cannot be read but the namespace directory can be listed (siblings
`["tool.md"]` are available), the error response of `getOverviewDocFor`
embeds the failure message but not the directory listing: the listing goes
only to the diagnostic log. -/
theorem claim4_counterexample :
    fsPerm.readdir ["app", "docs", "sample"] = Except.ok ["tool.md"] ∧
    (getOverviewDocFor fsPerm ["app", "src"] "sample").isError = some true ∧
    StrContains (responseText (getOverviewDocFor fsPerm ["app", "src"] "sample"))
      "EACCES: permission denied" ∧
    ¬ StrContains (responseText (getOverviewDocFor fsPerm ["app", "src"] "sample"))
      "tool.md" := by
  refine ⟨rfl, rfl, by decide, by decide⟩

/-- C4 amended: when `getOverviewDocFor` fails to read the resolved file,
it returns an error response embedding the failure message; the response
is exactly the fixed error template, so the directory listing is never
part of it. -/
theorem claim4_amended_error_message (fs : FS) (m : Path) (name msg : String)
    (h : tryReadDoc fs (overviewDocPath m name) = Except.error msg) :
    getOverviewDocFor fs m name =
      { content := [{ type := "text", text := overviewErrText name msg }],
        isError := some true } ∧
    StrContains (overviewErrText name msg) msg := by
  constructor
  · simp [getOverviewDocFor, h]
  · exact strContains_of_parts _
      ("Error: Could not find overview document for \"" ++ name ++ "\". ") msg ""
      (by simp [overviewErrText])

/-- C4 amended witness: a missing namespace yields the error template
embedding the `ENOENT` message. -/
theorem claim4_amended_error_message_witness :
    getOverviewDocFor fsSample ["app", "src"] "missing" =
      { content :=
          [{ type := "text",
             text := overviewErrText "missing" "ENOENT: no such file or directory" }],
        isError := some true } ∧
    StrContains (overviewErrText "missing" "ENOENT: no such file or directory")
      "ENOENT: no such file or directory" :=
  claim4_amended_error_message fsSample ["app", "src"] "missing"
    "ENOENT: no such file or directory" rfl

/-- C5: when `docs/<project>/` exists (and can be listed) but the
requested document file is absent, `getDetailedDocFor` returns an error
response whose text enumerates the actual filenames present in
`docs/<project>/`. -/
theorem claim5_sibling_enumeration (fs : FS) (m : Path) (project document msg : String)
    (files : List String)
    (h1 : fs.access (detailDocPath m project document) = Except.error msg)
    (h2 : fs.access (projectDirPath m project) = Except.ok ())
    (h3 : fs.readdir (projectDirPath m project) = Except.ok files) :
    getDetailedDocFor fs m project document =
      { content :=
          [{ type := "text",
             text := detailSiblingsErrText project document msg files }],
        isError := some true } ∧
    ∀ f ∈ files, StrContains (detailSiblingsErrText project document msg files) f := by
  constructor
  · simp [getDetailedDocFor, tryReadDoc, listProjectDir, h1, h2, h3]
  · intro f hf
    obtain ⟨s, t, hst⟩ := joinComma_mem f files hf
    refine ⟨("Error: Could not find document \"" ++ document ++ ".md\" for project \"" ++
      project ++ "\". \nAvailable documents: ").data ++ s, t ++ (". " ++ msg).data, ?_⟩
    simp only [detailSiblingsErrText, String.data_append, ← hst, List.append_assoc]

/-- C5 witness: the concrete scenario — `docs/sample/` holds `overview.md`
and `tool.md`, `getDetailedDocFor("sample", "resource")` errors and its
text includes `tool.md`. -/
theorem claim5_sibling_enumeration_witness :
    getDetailedDocFor fsSample ["app", "src"] "sample" "resource" =
      { content :=
          [{ type := "text",
             text := detailSiblingsErrText "sample" "resource"
               "ENOENT: no such file or directory" ["overview.md", "tool.md"] }],
        isError := some true } ∧
    StrContains (detailSiblingsErrText "sample" "resource"
      "ENOENT: no such file or directory" ["overview.md", "tool.md"]) "tool.md" :=
  ⟨(claim5_sibling_enumeration fsSample ["app", "src"] "sample" "resource"
      "ENOENT: no such file or directory" ["overview.md", "tool.md"] rfl rfl rfl).1,
   (claim5_sibling_enumeration fsSample ["app", "src"] "sample" "resource"
      "ENOENT: no such file or directory" ["overview.md", "tool.md"] rfl rfl rfl).2
      "tool.md" (by decide)⟩

/-- C6: when the diagnostic lookup of `docs/<project>/` itself fails (in
particular when the directory does not exist), `getDetailedDocFor` returns
the fixed error response that names only the project and document and
claims no sibling listing — the diagnostic failure is swallowed, not
escalated. -/
theorem claim6_missing_project_degrades (fs : FS) (m : Path) (project document msg e : String)
    (h1 : tryReadDoc fs (detailDocPath m project document) = Except.error msg)
    (h2 : listProjectDir fs (projectDirPath m project) = Except.error e) :
    getDetailedDocFor fs m project document =
      { content := [{ type := "text", text := detailMissingErrText project document msg }],
        isError := some true } := by
  simp [getDetailedDocFor, h1, h2]

/-- C6 witness: requesting a document of a project with no directory
yields the fixed no-listing error response. -/
theorem claim6_missing_project_degrades_witness :
    getDetailedDocFor fsSample ["app", "src"] "nope" "guide" =
      { content :=
          [{ type := "text",
             text := detailMissingErrText "nope" "guide" "ENOENT: no such file or directory" }],
        isError := some true } :=
  claim6_missing_project_degrades fsSample ["app", "src"] "nope" "guide"
    "ENOENT: no such file or directory" "ENOENT: no such file or directory" rfl rfl

/-- C7: every per-request failure is caught at the handler boundary and
converted into a structured error response (a single text content item
with `isError` set); no failure escapes a handler — the handlers are total
functions into the response type for every filesystem state. -/
theorem claim7_failures_converted (fs : FS) (m : Path)
    (name project document msga msgb : String)
    (h1 : tryReadDoc fs (overviewDocPath m name) = Except.error msga)
    (h2 : tryReadDoc fs (detailDocPath m project document) = Except.error msgb) :
    ((getOverviewDocFor fs m name).isError = some true ∧
      (getOverviewDocFor fs m name).content =
        [{ type := "text", text := overviewErrText name msga }]) ∧
    ((getDetailedDocFor fs m project document).isError = some true ∧
      ∃ t, (getDetailedDocFor fs m project document).content =
        [{ type := "text", text := t }]) := by
  refine ⟨⟨by simp [getOverviewDocFor, h1], by simp [getOverviewDocFor, h1]⟩, ?_⟩
  rcases h : listProjectDir fs (projectDirPath m project) with e | files
  · exact ⟨by simp [getDetailedDocFor, h1, h2, h],
      ⟨detailMissingErrText project document msgb, by simp [getDetailedDocFor, h1, h2, h]⟩⟩
  · exact ⟨by simp [getDetailedDocFor, h1, h2, h],
      ⟨detailSiblingsErrText project document msgb files,
        by simp [getDetailedDocFor, h1, h2, h]⟩⟩

/-- C7 witness: both handlers convert a missing-file failure into a
structured error response on the sample filesystem. -/
theorem claim7_failures_converted_witness :
    ((getOverviewDocFor fsSample ["app", "src"] "missing").isError = some true ∧
      (getOverviewDocFor fsSample ["app", "src"] "missing").content =
        [{ type := "text",
             text := overviewErrText "missing" "ENOENT: no such file or directory" }]) ∧
    ((getDetailedDocFor fsSample ["app", "src"] "nope" "guide").isError = some true ∧
      ∃ t, (getDetailedDocFor fsSample ["app", "src"] "nope" "guide").content =
        [{ type := "text", text := t }]) :=
  claim7_failures_converted fsSample ["app", "src"] "missing" "nope" "guide"
    "ENOENT: no such file or directory" "ENOENT: no such file or directory" rfl rfl

/-- C8: for every name whose lookup fails (in particular when no matching
namespace directory exists), `getOverviewDocFor` returns an error response
whose text contains the literal namespace string that was requested. -/
theorem claim8_error_names_namespace (fs : FS) (m : Path) (name msg : String)
    (h : tryReadDoc fs (overviewDocPath m name) = Except.error msg) :
    (getOverviewDocFor fs m name).isError = some true ∧
    StrContains (responseText (getOverviewDocFor fs m name)) name := by
  have hresp : getOverviewDocFor fs m name =
      { content := [{ type := "text", text := overviewErrText name msg }],
        isError := some true } := by
    simp [getOverviewDocFor, h]
  rw [hresp]
  refine ⟨rfl, ?_⟩
  exact strContains_of_parts _ "Error: Could not find overview document for \"" name
    ("\". " ++ msg) (by simp [responseText, overviewErrText, String.append_assoc])

/-- C8 witness: the error text for the unknown namespace `missing`
contains the string `missing`. -/
theorem claim8_error_names_namespace_witness :
    (getOverviewDocFor fsSample ["app", "src"] "missing").isError = some true ∧
    StrContains (responseText (getOverviewDocFor fsSample ["app", "src"] "missing"))
      "missing" :=
  claim8_error_names_namespace fsSample ["app", "src"] "missing"
    "ENOENT: no such file or directory" rfl

/-- C9 counterexample: `z.string()` accepts the empty string, so a request
with an empty `name` is not rejected — validation succeeds and the handler
body runs, here producing its `ENOENT` error response for
`<root>/docs/overview.md`. -/
theorem claim9_counterexample :
    zString (JsonValue.str "") = Except.ok "" ∧
    overviewToolCall fsSample ["app", "src"] (JsonValue.str "") =
      Except.ok
        { content :=
            [{ type := "text",
               text := overviewErrText "" "ENOENT: no such file or directory" }],
          isError := some true } :=
  ⟨rfl, rfl⟩

/-- C9 amended: the `z.string()` validation layer applied to both
operations enforces exactly that `name`, `project` and `document` are
strings — any string, the empty string included, is accepted unchanged and
the handler body runs on it; non-string values are rejected; no further
validation is performed. -/
theorem claim9_amended_string_validation (fs : FS) (m : Path) :
    (∀ v : JsonValue, (∃ s, zString v = Except.ok s) ↔ ∃ s, v = JsonValue.str s) ∧
    (∀ s, zString (JsonValue.str s) = Except.ok s) ∧
    (∀ s, overviewToolCall fs m (JsonValue.str s) =
      Except.ok (getOverviewDocFor fs m s)) ∧
    (∀ p d, detailToolCall fs m (JsonValue.str p) (JsonValue.str d) =
      Except.ok (getDetailedDocFor fs m p d)) := by
  refine ⟨?_, fun s => rfl, fun s => rfl, fun p d => rfl⟩
  intro v
  cases v <;> simp [zString]

/-- C10: on every input and filesystem state, each handler's response has
exactly one content item, of type `text`; `isError` is `some true` exactly
when the read failed, and successful responses carry no `isError` flag. -/
theorem claim10_envelope_shape (fs : FS) (m : Path) (name project document : String) :
    ((getOverviewDocFor fs m name).content.map ContentItem.type = ["text"] ∧
      ((getOverviewDocFor fs m name).isError = some true ↔
        ∃ e, tryReadDoc fs (overviewDocPath m name) = Except.error e) ∧
      ((getOverviewDocFor fs m name).isError = none ↔
        ∃ c, tryReadDoc fs (overviewDocPath m name) = Except.ok c)) ∧
    ((getDetailedDocFor fs m project document).content.map ContentItem.type = ["text"] ∧
      ((getDetailedDocFor fs m project document).isError = some true ↔
        ∃ e, tryReadDoc fs (detailDocPath m project document) = Except.error e) ∧
      ((getDetailedDocFor fs m project document).isError = none ↔
        ∃ c, tryReadDoc fs (detailDocPath m project document) = Except.ok c)) := by
  constructor
  · rcases h : tryReadDoc fs (overviewDocPath m name) with e | c <;>
      simp [getOverviewDocFor, h]
  · rcases h : tryReadDoc fs (detailDocPath m project document) with e | c
    · rcases h2 : listProjectDir fs (projectDirPath m project) with e2 | files <;>
        simp [getDetailedDocFor, h, h2]
    · simp [getDetailedDocFor, h]

end McpDocServer
